import Mathlib

/-!
# Verification of the TaskWhiz allocation core (`app.py`)

Shallow embedding of the two algorithmic components of `app.py`:

* `greedy_coloring` (lines 33-45): greedy graph coloring over an adjacency
  matrix, with `-1` as the "uncolored" sentinel;
* the scheduler inside `main` (lines 97, 126-141, 169): a stable priority
  sort of the task indices, the start-time pass, the Gantt table and the
  overdue-task list.

The adjacency matrix is embedded as its dimension `n : Nat` together with an
entry function `adj : Nat → Nat → Int` (`adj i j` is the matrix entry at row
`i`, column `j`); `n_nodes = len(adj_matrix)` becomes the explicit `n`.
Python's arbitrary-precision ints are `Int` where the code stores `-1`, and
`Nat` for the slider-supplied task attributes (durations, deadlines,
priorities are all drawn from positive ranges).
-/

namespace TaskWhiz

/-- Row scan `np.where(adj_matrix[node] == 1)[0]`: the indices `j < n` whose
entry in row `node` equals 1, in increasing order. -/
def neighborsOf (n : Nat) (adj : Nat → Nat → Int) (node : Nat) : List Nat :=
  (List.range n).filter (fun j => adj node j == 1)

/-- The comprehension
`{colors[neighbor] for neighbor in np.where(adj_matrix[node] == 1)[0] if colors[neighbor] != -1}`,
kept as a list (only membership in it is ever used). -/
def neighborColorList (colors : List Int) (nbrs : List Nat) : List Int :=
  (nbrs.map (fun j => colors.getD j (-1))).filter (fun c => c != -1)

/-- The loop `color = 0; while color in neighbor_colors: color += 1`,
with an explicit fuel bound (the loop body runs at most `s.length` times
because each successful test consumes a distinct element of `s`). -/
def pickColorGo (s : List Int) : Nat → Nat → Nat
  | 0, c => c
  | fuel + 1, c => if (c : Int) ∈ s then pickColorGo s fuel (c + 1) else c

/-- The color chosen for a node whose filtered neighbor colors are `s`. -/
def pickColor (s : List Int) : Nat :=
  pickColorGo s (s.length + 1) 0

theorem pickColorGo_le (s : List Int) :
    ∀ fuel c, pickColorGo s fuel c ≤ c + fuel := by
  intro fuel
  induction fuel with
  | zero => intro c; simp [pickColorGo]
  | succ m ih =>
    intro c
    simp only [pickColorGo]
    split
    · calc pickColorGo s m (c + 1) ≤ c + 1 + m := ih (c + 1)
        _ = c + (m + 1) := by omega
    · omega

theorem pickColorGo_mem_of_lt (s : List Int) :
    ∀ fuel c k, c ≤ k → k < pickColorGo s fuel c → (k : Int) ∈ s := by
  intro fuel
  induction fuel with
  | zero => intro c k hck hk; simp [pickColorGo] at hk; omega
  | succ m ih =>
    intro c k hck hk
    simp only [pickColorGo] at hk
    by_cases hc : (c : Int) ∈ s
    · rw [if_pos hc] at hk
      rcases Nat.eq_or_lt_of_le hck with h | h
      · exact h ▸ hc
      · exact ih (c + 1) k h hk
    · rw [if_neg hc] at hk; omega

theorem pickColorGo_not_mem (s : List Int) :
    ∀ fuel c, pickColorGo s fuel c < c + fuel → (pickColorGo s fuel c : Int) ∉ s := by
  intro fuel
  induction fuel with
  | zero => intro c h; simp [pickColorGo] at h
  | succ m ih =>
    intro c h
    simp only [pickColorGo] at h ⊢
    by_cases hc : (c : Int) ∈ s
    · rw [if_pos hc] at h ⊢
      exact ih (c + 1) (by omega)
    · rw [if_neg hc]; exact hc

/-- The fuel never runs out: the loop exits strictly before `s.length + 1`
iterations, by pigeonhole on the distinct values `0, …, s.length`. -/
theorem pickColor_le_length (s : List Int) : pickColor s ≤ s.length := by
  by_contra h
  push_neg at h
  have hle := pickColorGo_le s (s.length + 1) 0
  have heq : pickColor s = s.length + 1 := by
    unfold pickColor at h ⊢; omega
  have hall : ∀ k : Nat, k ≤ s.length → (k : Int) ∈ s := by
    intro k hk
    exact pickColorGo_mem_of_lt s (s.length + 1) 0 k (Nat.zero_le k)
      (by unfold pickColor at heq; omega)
  -- pigeonhole: `s.length + 1` distinct integers all lie in a list of length `s.length`
  have hsub : (Finset.range (s.length + 1)).image (fun k : Nat => (k : Int)) ⊆ s.toFinset := by
    intro x hx
    rcases Finset.mem_image.mp hx with ⟨k, hk, rfl⟩
    exact List.mem_toFinset.mpr (hall k (by simpa using Nat.lt_succ_iff.mp (Finset.mem_range.mp hk)))
  have hcard : s.length + 1 ≤ s.toFinset.card := by
    calc s.length + 1
        = ((Finset.range (s.length + 1)).image (fun k : Nat => (k : Int))).card := by
          rw [Finset.card_image_of_injective _ (fun a b hab => by exact_mod_cast hab)]
          simp
      _ ≤ s.toFinset.card := Finset.card_le_card hsub
  have := s.toFinset_card_le
  omega

theorem pickColor_not_mem (s : List Int) : (pickColor s : Int) ∉ s := by
  have h := pickColor_le_length s
  unfold pickColor at h ⊢
  exact pickColorGo_not_mem s (s.length + 1) 0 (by omega)

theorem pickColor_min (s : List Int) :
    ∀ k : Nat, k < pickColor s → (k : Int) ∈ s := by
  intro k hk
  exact pickColorGo_mem_of_lt s (s.length + 1) 0 k (Nat.zero_le k) hk

/-- One iteration of the `for node in range(n_nodes)` loop of
`greedy_coloring`: compute the neighbor colors of `node` and overwrite
`colors[node]` with the smallest color not among them. -/
def greedyStep (n : Nat) (adj : Nat → Nat → Int) (colors : List Int) (node : Nat) :
    List Int :=
  colors.set node (pickColor (neighborColorList colors (neighborsOf n adj node)))

/-- The state of `colors` after the loop has processed nodes `0, …, k-1`,
starting from `[-1] * n_nodes`. -/
def greedyUpto (n : Nat) (adj : Nat → Nat → Int) (k : Nat) : List Int :=
  (List.range k).foldl (greedyStep n adj) (List.replicate n (-1))

/-- `greedy_coloring(adj_matrix)` (app.py lines 33-45). -/
def greedy_coloring (n : Nat) (adj : Nat → Nat → Int) : List Int :=
  greedyUpto n adj n

theorem greedyUpto_succ (n : Nat) (adj : Nat → Nat → Int) (k : Nat) :
    greedyUpto n adj (k + 1) = greedyStep n adj (greedyUpto n adj k) k := by
  unfold greedyUpto
  rw [List.range_succ, List.foldl_append, List.foldl_cons, List.foldl_nil]

theorem length_greedyUpto (n : Nat) (adj : Nat → Nat → Int) (k : Nat) :
    (greedyUpto n adj k).length = n := by
  induction k with
  | zero => simp [greedyUpto]
  | succ m ih => rw [greedyUpto_succ, greedyStep, List.length_set, ih]

/-- Entries at index `≥ k` are still the sentinel `-1` after `k` steps (an
out-of-range `getD` also yields the default `-1`). -/
theorem greedyUpto_getD_of_le (n : Nat) (adj : Nat → Nat → Int) {k j : Nat}
    (h : k ≤ j) : (greedyUpto n adj k).getD j (-1) = -1 := by
  induction k with
  | zero =>
    unfold greedyUpto
    simp only [List.range_zero, List.foldl_nil]
    rcases Nat.lt_or_ge j n with hj | hj
    · simp [List.getD, List.getElem?_replicate, hj]
    · rw [List.getD_eq_default _ _ (by simpa using hj)]
  | succ m ih =>
    rw [greedyUpto_succ, greedyStep]
    rw [List.getD, List.get?_set_ne _ _ (by omega), ← List.getD]
    exact ih (by omega)

/-- Entries already set are never touched again: the entry of node `j` is
frozen once step `j` has run. -/
theorem greedyUpto_getD_stable (n : Nat) (adj : Nat → Nat → Int) {k j : Nat}
    (h : j < k) :
    (greedyUpto n adj k).getD j (-1) = (greedyUpto n adj (j + 1)).getD j (-1) := by
  induction k with
  | zero => omega
  | succ m ih =>
    rcases Nat.lt_or_ge j m with hj | hj
    · rw [greedyUpto_succ, greedyStep,
        List.getD, List.get?_set_ne _ _ (by omega), ← List.getD]
      exact ih hj
    · have : j = m := by omega
      subst this
      rfl

/-- The color of node `j` in the final assignment is the one computed by
step `j` from the state after steps `0, …, j-1`. -/
theorem greedy_getD_eq (n : Nat) (adj : Nat → Nat → Int) {j : Nat} (hj : j < n) :
    (greedy_coloring n adj).getD j (-1) =
      (pickColor (neighborColorList (greedyUpto n adj j) (neighborsOf n adj j)) : Int) := by
  unfold greedy_coloring
  rw [greedyUpto_getD_stable n adj hj, greedyUpto_succ, greedyStep, List.getD,
    List.get?_set_eq_of_lt _ (by rw [length_greedyUpto]; exact hj)]
  rfl

/-- Every node that has been processed carries a non-negative color. -/
theorem greedy_getD_nonneg (n : Nat) (adj : Nat → Nat → Int) {j : Nat} (hj : j < n) :
    0 ≤ (greedy_coloring n adj).getD j (-1) := by
  rw [greedy_getD_eq n adj hj]
  exact Int.ofNat_nonneg _

/-- Membership in the filtered neighbor-color list. -/
theorem mem_neighborColorList {colors : List Int} {nbrs : List Nat} {j : Nat}
    (hj : j ∈ nbrs) (hne : colors.getD j (-1) ≠ -1) :
    colors.getD j (-1) ∈ neighborColorList colors nbrs := by
  unfold neighborColorList
  refine List.mem_filter.mpr ⟨List.mem_map.mpr ⟨j, hj, rfl⟩, ?_⟩
  simpa using hne

theorem mem_neighborsOf {n : Nat} {adj : Nat → Nat → Int} {node j : Nat}
    (hj : j < n) (h : adj node j = 1) : j ∈ neighborsOf n adj node := by
  unfold neighborsOf
  refine List.mem_filter.mpr ⟨List.mem_range.mpr hj, ?_⟩
  simpa using h

/-- Core properness argument: if `i` was colored before `j` and `j` sees `i`
in its row, then `j` avoids `i`'s (already final) color. -/
theorem coloring_proper_aux (n : Nat) (adj : Nat → Nat → Int) {i j : Nat}
    (hij : i < j) (hj : j < n) (hedge : adj j i = 1) :
    (greedy_coloring n adj).getD j (-1) ≠ (greedy_coloring n adj).getD i (-1) := by
  have hi : i < n := Nat.lt_trans hij hj
  have hstable : (greedyUpto n adj j).getD i (-1) = (greedy_coloring n adj).getD i (-1) := by
    unfold greedy_coloring
    rw [greedyUpto_getD_stable n adj hij, greedyUpto_getD_stable n adj hi]
  have hne : (greedyUpto n adj j).getD i (-1) ≠ -1 := by
    rw [hstable]
    have := greedy_getD_nonneg n adj hi
    omega
  have hmem : (greedyUpto n adj j).getD i (-1) ∈
      neighborColorList (greedyUpto n adj j) (neighborsOf n adj j) :=
    mem_neighborColorList (mem_neighborsOf hi hedge) hne
  rw [greedy_getD_eq n adj hj, ← hstable]
  intro hcontra
  exact pickColor_not_mem _ (hcontra ▸ hmem)

/-- C1: **Proper coloring.** For every symmetric, zero-diagonal adjacency
matrix and every edge `(i, j)` of it (entries equal to 1), the assignment
returned by `greedy_coloring` gives `color(i) ≠ color(j)`. Holds for every
`n`, in particular for `1 ≤ n ≤ 100` and matrices of any density. -/
theorem coloring_proper (n : Nat) (adj : Nat → Nat → Int)
    (hsym : ∀ i j, adj i j = adj j i) (hdiag : ∀ i, adj i i = 0)
    {i j : Nat} (hi : i < n) (hj : j < n) (hedge : adj i j = 1) :
    (greedy_coloring n adj).getD i (-1) ≠ (greedy_coloring n adj).getD j (-1) := by
  have hne : i ≠ j := by
    intro h
    subst h
    rw [hdiag i] at hedge
    exact absurd hedge (by decide)
  rcases Nat.lt_or_ge i j with hij | hij
  · exact (coloring_proper_aux n adj hij hj (by rw [hsym j i]; exact hedge)).symm
  · exact coloring_proper_aux n adj (by omega) hi hedge

/-- Concrete 2-node graph with the single (symmetric) edge `(0, 1)`. -/
def edgeAdj2 : Nat → Nat → Int :=
  fun i j => if (i == 0 && j == 1) || (i == 1 && j == 0) then 1 else 0

theorem edgeAdj2_symm : ∀ i j, edgeAdj2 i j = edgeAdj2 j i := by
  intro i j
  unfold edgeAdj2
  by_cases h0 : i = 0 <;> by_cases h1 : i = 1 <;>
    by_cases h2 : j = 0 <;> by_cases h3 : j = 1 <;>
      simp [h0, h1, h2, h3]

theorem edgeAdj2_diag : ∀ i, edgeAdj2 i i = 0 := by
  intro i
  unfold edgeAdj2
  by_cases h0 : i = 0 <;> by_cases h1 : i = 1 <;> simp [h0, h1]

/-- Witness for C1 at the concrete 2-node single-edge graph. -/
theorem coloring_proper_witness :
    0 < 2 ∧ 1 < 2 ∧ edgeAdj2 0 1 = 1 ∧
      (greedy_coloring 2 edgeAdj2).getD 0 (-1) ≠ (greedy_coloring 2 edgeAdj2).getD 1 (-1) :=
  ⟨by decide, by decide, by decide,
    coloring_proper 2 edgeAdj2 edgeAdj2_symm edgeAdj2_diag (by decide) (by decide) (by decide)⟩

/-- Number of neighbors of node `i` (count of entries equal to 1 in row `i`). -/
def degreeOf (n : Nat) (adj : Nat → Nat → Int) (i : Nat) : Nat :=
  (neighborsOf n adj i).length

/-- Maximum degree over all nodes of the graph (0 for the empty graph). -/
def maxDegree (n : Nat) (adj : Nat → Nat → Int) : Nat :=
  ((List.range n).map (degreeOf n adj)).foldr max 0

theorem le_foldr_max {l : List Nat} {x : Nat} (hx : x ∈ l) : x ≤ l.foldr max 0 := by
  induction l with
  | nil => cases hx
  | cons a l ih =>
    rcases List.mem_cons.mp hx with h | h
    · subst h; exact Nat.le_max_left _ _
    · exact Nat.le_trans (ih h) (Nat.le_max_right _ _)

/-- C6: **Color bound.** For every symmetric, zero-diagonal adjacency
matrix, no color id assigned by `greedy_coloring` exceeds the maximum
degree of the graph. -/
theorem coloring_color_le_maxDegree (n : Nat) (adj : Nat → Nat → Int)
    (_hsym : ∀ i j, adj i j = adj j i) (_hdiag : ∀ i, adj i i = 0)
    {i : Nat} (hi : i < n) :
    (greedy_coloring n adj).getD i (-1) ≤ (maxDegree n adj : Int) := by
  rw [greedy_getD_eq n adj hi]
  have h1 : pickColor (neighborColorList (greedyUpto n adj i) (neighborsOf n adj i)) ≤
      degreeOf n adj i := by
    refine Nat.le_trans (pickColor_le_length _) ?_
    unfold neighborColorList degreeOf
    exact Nat.le_trans (List.length_filter_le _ _) (by rw [List.length_map])
  have h2 : degreeOf n adj i ≤ maxDegree n adj :=
    le_foldr_max (List.mem_map.mpr ⟨i, List.mem_range.mpr hi, rfl⟩)
  exact_mod_cast Nat.le_trans h1 h2

/-- Witness for C6 at the concrete 2-node single-edge graph. -/
theorem coloring_color_le_maxDegree_witness :
    1 < 2 ∧ (greedy_coloring 2 edgeAdj2).getD 1 (-1) ≤ (maxDegree 2 edgeAdj2 : Int) :=
  ⟨by decide,
    coloring_color_le_maxDegree 2 edgeAdj2 edgeAdj2_symm edgeAdj2_diag (by decide)⟩

/-- The colors of the already-processed (smaller-index) neighbors of `i`,
read off from the final assignment. -/
def priorNeighborColors (n : Nat) (adj : Nat → Nat → Int) (i : Nat) : List Int :=
  ((neighborsOf n adj i).filter (fun j => j < i)).map
    (fun j => (greedy_coloring n adj).getD j (-1))

/-- At step `i`, the filtered neighbor-color list coincides with the final
colors of the neighbors of smaller index: larger-index neighbors still hold
the sentinel and are dropped by the filter, smaller-index ones are frozen. -/
theorem neighborColorList_eq_prior (n : Nat) (adj : Nat → Nat → Int) {i : Nat}
    (hi : i < n) :
    neighborColorList (greedyUpto n adj i) (neighborsOf n adj i) =
      priorNeighborColors n adj i := by
  unfold neighborColorList priorNeighborColors
  rw [List.filter_map]
  have hfilter : (neighborsOf n adj i).filter
      ((fun c => c != -1) ∘ fun j => (greedyUpto n adj i).getD j (-1)) =
      (neighborsOf n adj i).filter (fun j => j < i) := by
    refine List.filter_congr ?_
    intro j hj
    simp only [Function.comp]
    rcases Nat.lt_or_ge j i with h | h
    · have hjn : j < n := Nat.lt_trans h hi
      have heq : (greedyUpto n adj i).getD j (-1) = (greedy_coloring n adj).getD j (-1) := by
        unfold greedy_coloring
        rw [greedyUpto_getD_stable n adj h, greedyUpto_getD_stable n adj hjn]
      have hnn := greedy_getD_nonneg n adj hjn
      rw [heq]
      have h1 : ((greedy_coloring n adj).getD j (-1) != -1) = true := by
        simp only [bne_iff_ne, ne_eq]
        omega
      rw [h1]
      exact (decide_eq_true h).symm
    · rw [greedyUpto_getD_of_le n adj h]
      have hni : ¬ j < i := Nat.not_lt.mpr h
      simp [hni]
  rw [hfilter]
  refine List.map_congr_left ?_
  intro j hj
  have hji : j < i := by
    have := (List.mem_filter.mp hj).2
    simpa using this
  have hjn : j < n := Nat.lt_trans hji hi
  unfold greedy_coloring
  rw [greedyUpto_getD_stable n adj hji, greedyUpto_getD_stable n adj hjn]

/-- The 3-node path graph of example scenario 1: edges `(0,1)` and `(1,2)`,
no edge `(0,2)`. -/
def pathAdj3 : Nat → Nat → Int :=
  fun i j =>
    if (i == 0 && j == 1) || (i == 1 && j == 0) || (i == 1 && j == 2) || (i == 2 && j == 1)
    then 1 else 0

/-- C2: **Greedy coloring algorithm.** `greedy_coloring` processes the task
indices in increasing order and gives each task `i` the smallest
non-negative integer not among the colors already assigned to its neighbors
(unprocessed, larger-index neighbors contribute nothing); and on the 3-node
path graph with edges `{(0,1), (1,2)}` the result is
`color(0) = 0, color(1) = 1, color(2) = 0`. -/
theorem greedy_characterization :
    (∀ (n : Nat) (adj : Nat → Nat → Int) (i : Nat), i < n →
      0 ≤ (greedy_coloring n adj).getD i (-1) ∧
      (greedy_coloring n adj).getD i (-1) ∉ priorNeighborColors n adj i ∧
      ∀ k : Nat, (k : Int) < (greedy_coloring n adj).getD i (-1) →
        (k : Int) ∈ priorNeighborColors n adj i) ∧
    greedy_coloring 3 pathAdj3 = [0, 1, 0] := by
  constructor
  · intro n adj i hi
    refine ⟨greedy_getD_nonneg n adj hi, ?_, ?_⟩
    · rw [greedy_getD_eq n adj hi, ← neighborColorList_eq_prior n adj hi]
      exact pickColor_not_mem _
    · intro k hk
      rw [greedy_getD_eq n adj hi] at hk
      rw [← neighborColorList_eq_prior n adj hi]
      exact pickColor_min _ k (by exact_mod_cast hk)
  · decide

/-- Witness instantiating the universal part of C2 at node 2 of the
3-node path graph. -/
theorem greedy_characterization_witness :
    2 < 3 ∧
      (0 ≤ (greedy_coloring 3 pathAdj3).getD 2 (-1) ∧
        (greedy_coloring 3 pathAdj3).getD 2 (-1) ∉ priorNeighborColors 3 pathAdj3 2 ∧
        ∀ k : Nat, (k : Int) < (greedy_coloring 3 pathAdj3).getD 2 (-1) →
          (k : Int) ∈ priorNeighborColors 3 pathAdj3 2) :=
  ⟨by decide, greedy_characterization.1 3 pathAdj3 2 (by decide)⟩

/-- `adj` with every diagonal entry replaced by 0. -/
def zeroDiag (adj : Nat → Nat → Int) : Nat → Nat → Int :=
  fun i j => if i = j then 0 else adj i j

/-- Dropping a node whose stored color is still the sentinel from a
neighbor list does not change the filtered neighbor-color list. -/
theorem neighborColorList_filter_ne (colors : List Int) (k : Nat)
    (h : colors.getD k (-1) = -1) :
    ∀ l : List Nat,
      neighborColorList colors (l.filter (fun j => !(j == k))) =
        neighborColorList colors l := by
  intro l
  induction l with
  | nil => rfl
  | cons a l ih =>
    unfold neighborColorList at ih ⊢
    simp only [List.getD, List.get?_eq_getElem?] at h ih
    by_cases hak : a = k
    · subst hak
      simp [List.filter_cons, h, ih]
    · simp [List.filter_cons, hak, ih]

/-- The rows of `zeroDiag adj` select the same neighbors as those of `adj`,
except that the node itself is removed. -/
theorem neighborsOf_zeroDiag (n : Nat) (adj : Nat → Nat → Int) (k : Nat) :
    neighborsOf n (zeroDiag adj) k = (neighborsOf n adj k).filter (fun j => !(j == k)) := by
  unfold neighborsOf
  rw [List.filter_filter]
  refine List.filter_congr ?_
  intro j hj
  unfold zeroDiag
  by_cases hjk : k = j
  · subst hjk
    simp
  · simp [hjk, Ne.symm hjk]

/-- C10: **Diagonal irrelevance.** For every adjacency matrix, even one with
non-zero diagonal entries, `greedy_coloring` returns the same assignment as
on the matrix with all diagonal entries set to 0: when row `i` is scanned,
node `i` itself still holds the sentinel `-1` and is excluded from the
neighbor-color set. -/
theorem greedy_zeroDiag (n : Nat) (adj : Nat → Nat → Int) :
    greedy_coloring n adj = greedy_coloring n (zeroDiag adj) := by
  suffices h : ∀ k, greedyUpto n adj k = greedyUpto n (zeroDiag adj) k from h n
  intro k
  induction k with
  | zero => rfl
  | succ m ih =>
    rw [greedyUpto_succ, greedyUpto_succ, ← ih]
    unfold greedyStep
    rw [neighborsOf_zeroDiag,
      neighborColorList_filter_ne _ _ (greedyUpto_getD_of_le n adj (Nat.le_refl m))]

/-! ## Scheduler (app.py, `main`, lines 97 and 126-169) -/

/-- `sorted(range(n_nodes), key=lambda x: task_priorities[x])` (line 97).
Python's `sorted` is a stable sort: ascending by key, ties kept in input
order. It is embedded as insertion sort with the `≤` comparison on the
priority key, which realizes exactly that specification on `range n`. -/
def sortedTasks (n : Nat) (priority : Nat → Nat) : List Nat :=
  (List.range n).insertionSort (fun a b => priority a ≤ priority b)

/-- One iteration of the start-time loop (lines 127-130): read the row of
`task`, and if it is non-empty overwrite `start_times[task]` with
`max(start_times[dep] + task_duration[dep] for dep in dependent_tasks)`
(Python's `max` of a non-empty sequence: first element as seed). -/
def schedStep (n : Nat) (adj : Nat → Nat → Int) (duration : Nat → Nat)
    (st : Nat → Nat) (task : Nat) : Nat → Nat :=
  match neighborsOf n adj task with
  | [] => st
  | d :: ds =>
      Function.update st task
        (ds.foldl (fun m e => max m (st e + duration e)) (st d + duration d))

/-- The start-time dictionary (initially all zeros, line 126) after the
loop has run over the tasks listed in `l`. -/
def runSched (n : Nat) (adj : Nat → Nat → Int) (duration : Nat → Nat)
    (l : List Nat) : Nat → Nat :=
  l.foldl (schedStep n adj duration) (fun _ => 0)

/-- `start_times` after the full loop over `sorted_tasks` (lines 126-130). -/
def startTimes (n : Nat) (adj : Nat → Nat → Int) (duration priority : Nat → Nat) :
    Nat → Nat :=
  runSched n adj duration (sortedTasks n priority)

/-- The `"Finish"` field of the Gantt rows (line 139):
`start_times[task] + task_duration[task]`. -/
def finishTime (n : Nat) (adj : Nat → Nat → Int) (duration priority : Nat → Nat)
    (t : Nat) : Nat :=
  startTimes n adj duration priority t + duration t

/-- Line 169: the overdue tasks, collected by filtering `sorted_tasks` with
`start_times[task] + task_duration[task] > task_deadlines[task]` (the source
wraps each id `task` in the display string `"Task {task + 1}"`; the ids are
kept here). -/
def overdueTasks (n : Nat) (adj : Nat → Nat → Int)
    (duration priority deadline : Nat → Nat) : List Nat :=
  (sortedTasks n priority).filter
    (fun task => deadline task < startTimes n adj duration priority task + duration task)

/-- One row of `gantt_data` (lines 134-141). -/
structure GanttEntry where
  task : String
  start : Nat
  finish : Nat
  resource : String
deriving DecidableEq

/-- `gantt_data` (lines 134-141): one row per task, in `sorted_tasks`
order, carrying the description, start, finish and display resource label
`"Resource " + str(assigned_colors[task] + 1)`. -/
def ganttData (n : Nat) (adj : Nat → Nat → Int) (duration priority : Nat → Nat)
    (descr : Nat → String) (colors : Nat → Int) : List GanttEntry :=
  (sortedTasks n priority).map (fun task =>
    { task := descr task
      start := startTimes n adj duration priority task
      finish := startTimes n adj duration priority task + duration task
      resource := "Resource " ++ toString (colors task + 1) })

/-- The computation section of `main` after coloring: the Gantt table and
the overdue list, as a pair (the two outputs of the scheduler). -/
def allocationRun (n : Nat) (adj : Nat → Nat → Int)
    (duration priority deadline : Nat → Nat)
    (descr : Nat → String) (colors : Nat → Int) :
    List GanttEntry × List Nat :=
  (ganttData n adj duration priority descr colors,
    overdueTasks n adj duration priority deadline)

/-- The guard of `generate_graph` (lines 21-23) composed with `main`'s
handling (lines 83-84, 90-91): with `n_nodes < 1` the run stops with the
error message and `greedy_coloring` is never reached; otherwise the
coloring of the generated `n × n` matrix is produced. -/
def colorEntry (nNodes : Int) (adj : Nat → Nat → Int) : Except String (List Int) :=
  if nNodes < 1 then Except.error "Number of nodes must be at least 1!"
  else Except.ok (greedy_coloring nNodes.toNat adj)

theorem sortedTasks_perm (n : Nat) (priority : Nat → Nat) :
    (sortedTasks n priority).Perm (List.range n) :=
  List.perm_insertionSort _ _

theorem sortedTasks_nodup (n : Nat) (priority : Nat → Nat) :
    (sortedTasks n priority).Nodup :=
  (sortedTasks_perm n priority).nodup_iff.mpr (List.nodup_range n)

theorem schedStep_apply_ne (n : Nat) (adj : Nat → Nat → Int) (duration : Nat → Nat)
    (st : Nat → Nat) {task t : Nat} (h : t ≠ task) :
    schedStep n adj duration st task t = st t := by
  unfold schedStep
  cases neighborsOf n adj task with
  | nil => rfl
  | cons d ds => exact Function.update_noteq h _ _

/-- A task not visited by a run of the loop keeps its start time. -/
theorem foldl_schedStep_not_mem (n : Nat) (adj : Nat → Nat → Int)
    (duration : Nat → Nat) :
    ∀ (l : List Nat) (st : Nat → Nat) {t : Nat}, t ∉ l →
      l.foldl (schedStep n adj duration) st t = st t := by
  intro l
  induction l with
  | nil => intro st t _; rfl
  | cons a l ih =>
    intro st t ht
    rw [List.foldl_cons, ih _ (fun hmem => ht (List.mem_cons_of_mem a hmem))]
    exact schedStep_apply_ne n adj duration st
      (fun h => ht (h ▸ List.mem_cons_self a l))

theorem schedStep_eq_nil (n : Nat) (adj : Nat → Nat → Int) (duration : Nat → Nat)
    (st : Nat → Nat) {task : Nat} (h : neighborsOf n adj task = []) :
    schedStep n adj duration st task = st := by
  unfold schedStep
  rw [h]

theorem schedStep_eq_cons (n : Nat) (adj : Nat → Nat → Int) (duration : Nat → Nat)
    (st : Nat → Nat) {task d : Nat} {ds : List Nat}
    (h : neighborsOf n adj task = d :: ds) :
    schedStep n adj duration st task =
      Function.update st task
        (ds.foldl (fun m e => max m (st e + duration e)) (st d + duration d)) := by
  unfold schedStep
  rw [h]

/-- Folding Python's `max` seeded with the first value is folding `max`
over the mapped list seeded with the neutral 0. -/
theorem foldl_max_map (f : Nat → Nat) :
    ∀ (l : List Nat) (a : Nat),
      l.foldl (fun m e => max m (f e)) a = (l.map f).foldl max a := by
  intro l
  induction l with
  | nil => intro a; rfl
  | cons b l ih => intro a; rw [List.foldl_cons, List.map_cons, List.foldl_cons, ih]

/-- C3: **Start-time rule.** With all start times initialized to 0, the
scheduler visits the tasks in priority order; the `k`-th visited task `t`
keeps start 0 when its neighbor set is empty, and otherwise receives
`max over neighbors d of (start(d) + duration(d))` computed from the start
values current at that moment (the state after the first `k` visits — no
topological traversal); and every task's finish time is its start time
plus its duration. -/
theorem startTimes_rule (n : Nat) (adj : Nat → Nat → Int)
    (duration priority : Nat → Nat) (k : Nat)
    (hk : k < (sortedTasks n priority).length) :
    (neighborsOf n adj ((sortedTasks n priority).getD k 0) = [] →
      startTimes n adj duration priority ((sortedTasks n priority).getD k 0) = 0) ∧
    (neighborsOf n adj ((sortedTasks n priority).getD k 0) ≠ [] →
      startTimes n adj duration priority ((sortedTasks n priority).getD k 0) =
        ((neighborsOf n adj ((sortedTasks n priority).getD k 0)).map
          (fun d => runSched n adj duration ((sortedTasks n priority).take k) d +
            duration d)).foldl max 0) ∧
    (∀ t, finishTime n adj duration priority t =
      startTimes n adj duration priority t + duration t) := by
  have hget : (sortedTasks n priority).getD k 0 = (sortedTasks n priority).get ⟨k, hk⟩ := by
    rw [List.getD_eq_getElem _ _ hk]
    rfl
  have hsplit : sortedTasks n priority =
      (sortedTasks n priority).take k ++
        (sortedTasks n priority).getD k 0 :: (sortedTasks n priority).drop (k + 1) := by
    conv_lhs => rw [← List.take_append_drop k (sortedTasks n priority)]
    rw [List.drop_eq_getElem_cons hk, List.getD_eq_getElem _ _ hk]
  have hnodup := sortedTasks_nodup n priority
  rw [hsplit] at hnodup
  rcases List.nodup_append.mp hnodup with ⟨_, hnd2, hdisj⟩
  have hdrop : (sortedTasks n priority).getD k 0 ∉ (sortedTasks n priority).drop (k + 1) :=
    (List.nodup_cons.mp hnd2).1
  have htake : (sortedTasks n priority).getD k 0 ∉ (sortedTasks n priority).take k :=
    fun hmem => hdisj hmem (List.mem_cons_self _ _)
  have hstart : startTimes n adj duration priority ((sortedTasks n priority).getD k 0) =
      schedStep n adj duration (runSched n adj duration ((sortedTasks n priority).take k))
        ((sortedTasks n priority).getD k 0) ((sortedTasks n priority).getD k 0) := by
    unfold startTimes runSched
    nth_rewrite 1 [hsplit]
    rw [List.foldl_append, List.foldl_cons]
    exact foldl_schedStep_not_mem n adj duration _ _ hdrop
  refine ⟨?_, ?_, fun t => rfl⟩
  · intro hnil
    rw [hstart, schedStep_eq_nil n adj duration _ hnil]
    exact foldl_schedStep_not_mem n adj duration _ _ htake
  · intro hne
    cases hnbrs : neighborsOf n adj ((sortedTasks n priority).getD k 0) with
    | nil => exact absurd hnbrs hne
    | cons d ds =>
      rw [hstart, schedStep_eq_cons n adj duration _ hnbrs, Function.update_same,
        foldl_max_map, List.map_cons, List.foldl_cons, Nat.zero_max]

/-- Task attributes of example scenario 3: durations `[2, 2]`,
priorities `[1, 2]`, and (for the overdue check) deadlines `[3, 3]`. -/
def exDur2 : Nat → Nat := fun _ => 2

def exPr2 : Nat → Nat := fun t => t + 1

def exDl2 : Nat → Nat := fun _ => 3

/-- Witness instantiating C3 at the second visited task of the concrete
two-task graph. -/
theorem startTimes_rule_witness :
    1 < (sortedTasks 2 exPr2).length ∧
    ((neighborsOf 2 edgeAdj2 ((sortedTasks 2 exPr2).getD 1 0) = [] →
        startTimes 2 edgeAdj2 exDur2 exPr2 ((sortedTasks 2 exPr2).getD 1 0) = 0) ∧
      (neighborsOf 2 edgeAdj2 ((sortedTasks 2 exPr2).getD 1 0) ≠ [] →
        startTimes 2 edgeAdj2 exDur2 exPr2 ((sortedTasks 2 exPr2).getD 1 0) =
          ((neighborsOf 2 edgeAdj2 ((sortedTasks 2 exPr2).getD 1 0)).map
            (fun d => runSched 2 edgeAdj2 exDur2 ((sortedTasks 2 exPr2).take 1) d +
              exDur2 d)).foldl max 0) ∧
      (∀ t, finishTime 2 edgeAdj2 exDur2 exPr2 t =
        startTimes 2 edgeAdj2 exDur2 exPr2 t + exDur2 t)) :=
  ⟨by decide, startTimes_rule 2 edgeAdj2 exDur2 exPr2 1 (by decide)⟩

/-- C4 counterexample: on the two-task graph with the symmetric edge
`(0, 1)`, durations `[2, 2]` and priorities `[1, 2]`, the scheduler does
**not** produce `start(1) = 2` and `finish(1) = 4`: task 0 is visited
first and already picks up `start(1) + duration(1) = 2` from its neighbor,
so task 1 then gets `start(0) + duration(0) = 4`. -/
theorem sched_example3_refuted :
    ¬ (startTimes 2 edgeAdj2 exDur2 exPr2 1 = 2 ∧
        finishTime 2 edgeAdj2 exDur2 exPr2 1 = 4) := by
  decide

/-- C4 amended: on that graph the scheduler visits task 0 first and sets
`start(0) = start(1) + duration(1) = 2` (start(1) still 0), then
`start(1) = start(0) + duration(0) = 4` and `finish(1) = 6`. -/
theorem sched_example3_amended :
    sortedTasks 2 exPr2 = [0, 1] ∧
    startTimes 2 edgeAdj2 exDur2 exPr2 0 = 2 ∧
    startTimes 2 edgeAdj2 exDur2 exPr2 1 = 4 ∧
    startTimes 2 edgeAdj2 exDur2 exPr2 1 =
      startTimes 2 edgeAdj2 exDur2 exPr2 0 + exDur2 0 ∧
    finishTime 2 edgeAdj2 exDur2 exPr2 1 = 6 := by
  decide

/-- C5: **Overdue correctness.** After all start and finish times are
final, a task `t < n` is in the overdue output iff
`finish(t) > deadline(t)`; and the overdue list is a sublist of the
priority order driving the schedule output, so its reporting order matches
the schedule output order. -/
theorem overdue_iff (n : Nat) (adj : Nat → Nat → Int)
    (duration priority deadline : Nat → Nat) :
    (∀ t, t < n →
      (t ∈ overdueTasks n adj duration priority deadline ↔
        deadline t < finishTime n adj duration priority t)) ∧
    (overdueTasks n adj duration priority deadline).Sublist (sortedTasks n priority) := by
  constructor
  · intro t ht
    unfold overdueTasks
    rw [List.mem_filter]
    constructor
    · intro ⟨_, hpred⟩
      unfold finishTime
      simpa using hpred
    · intro hfin
      refine ⟨?_, ?_⟩
      · exact (sortedTasks_perm n priority).mem_iff.mpr (List.mem_range.mpr ht)
      · unfold finishTime at hfin
        simpa using hfin
  · exact List.filter_sublist _

/-- Witness instantiating C5 on the concrete two-task run (task 1 finishes
at 6, past its deadline 3, and is reported overdue). -/
theorem overdue_iff_witness :
    1 < 2 ∧
      (1 ∈ overdueTasks 2 edgeAdj2 exDur2 exPr2 exDl2 ↔
        exDl2 1 < finishTime 2 edgeAdj2 exDur2 exPr2 1) :=
  ⟨by decide, (overdue_iff 2 edgeAdj2 exDur2 exPr2 exDl2).1 1 (by decide)⟩

/-- Strict "priority, then original index" lexicographic order: the unique
order of a stable ascending sort of distinct indices by priority. -/
def lexLt (priority : Nat → Nat) (a b : Nat) : Prop :=
  priority a < priority b ∨ (priority a = priority b ∧ a < b)

/-- Inserting `a` into a lex-sorted list all of whose tie-mates come after
`a` in the input keeps the list lex-sorted. -/
theorem orderedInsert_pairwise_lex (priority : Nat → Nat) (a : Nat) :
    ∀ m : List Nat, m.Pairwise (lexLt priority) →
      (∀ b ∈ m, priority a = priority b → a < b) →
      (m.orderedInsert (fun x y => priority x ≤ priority y) a).Pairwise (lexLt priority) := by
  intro m
  induction m with
  | nil => intro _ _; simp [List.orderedInsert]
  | cons b m ih =>
    intro hm ha
    rw [List.orderedInsert]
    by_cases hab : priority a ≤ priority b
    · rw [if_pos hab]
      rw [List.pairwise_cons]
      refine ⟨?_, hm⟩
      intro x hx
      have hax : priority a ≤ priority x := by
        rcases List.mem_cons.mp hx with h | h
        · subst h; exact hab
        · have hbx := (List.pairwise_cons.mp hm).1 x h
          unfold lexLt at hbx
          omega
      rcases Nat.lt_or_ge (priority a) (priority x) with h | h
      · exact Or.inl h
      · have heq : priority a = priority x := by omega
        exact Or.inr ⟨heq, ha x hx heq⟩
    · rw [if_neg hab]
      rw [List.pairwise_cons]
      constructor
      · intro x hx
        rcases (List.mem_orderedInsert _).mp hx with h | h
        · subst h
          exact Or.inl (by omega)
        · exact (List.pairwise_cons.mp hm).1 x h
      · exact ih (List.pairwise_cons.mp hm).2
          (fun x hx heq => ha x (List.mem_cons_of_mem b hx) heq)

/-- Insertion sort by `priority a ≤ priority b` of a strictly increasing
index list is sorted in the strict lexicographic order: ties stay in
input (index) order. -/
theorem insertionSort_pairwise_lex (priority : Nat → Nat) :
    ∀ l : List Nat, l.Pairwise (· < ·) →
      (l.insertionSort (fun x y => priority x ≤ priority y)).Pairwise (lexLt priority) := by
  intro l
  induction l with
  | nil => intro _; simp [List.insertionSort]
  | cons a l ih =>
    intro hl
    rw [List.insertionSort]
    refine orderedInsert_pairwise_lex priority a _ (ih (List.pairwise_cons.mp hl).2) ?_
    intro b hb _
    exact (List.pairwise_cons.mp hl).1 b ((List.mem_insertionSort _).mp hb)

/-- C7: **Stability of the priority order.** The schedule's task sequence
is a permutation of `0, …, n-1` that is sorted ascending by priority with
ties broken by original index; in particular two tasks with equal priority
appear in the output in their input index order. -/
theorem sortedTasks_stable (n : Nat) (priority : Nat → Nat) :
    (sortedTasks n priority).Perm (List.range n) ∧
    (sortedTasks n priority).Pairwise (lexLt priority) :=
  ⟨sortedTasks_perm n priority,
    insertionSort_pairwise_lex priority (List.range n) (List.pairwise_lt_range n)⟩

/-- C9: **Noninterference of the scheduler.** Two runs with the same
adjacency matrix, durations and priorities but different color assignments
and different task descriptions produce Gantt rows with identical start
and finish times (row by row) and the identical overdue list: colors and
descriptions feed only the displayed labels, never the timeline numbers. -/
theorem scheduler_noninterference (n : Nat) (adj : Nat → Nat → Int)
    (duration priority deadline : Nat → Nat)
    (descr1 descr2 : Nat → String) (colors1 colors2 : Nat → Int) :
    ((allocationRun n adj duration priority deadline descr1 colors1).1.map
        (fun e => (e.start, e.finish)) =
      (allocationRun n adj duration priority deadline descr2 colors2).1.map
        (fun e => (e.start, e.finish))) ∧
    (allocationRun n adj duration priority deadline descr1 colors1).2 =
      (allocationRun n adj duration priority deadline descr2 colors2).2 := by
  constructor
  · unfold allocationRun ganttData
    rw [List.map_map, List.map_map]
    rfl
  · rfl

/-- C8: **Invalid node count.** Calling the coloring entry point with
`n_nodes < 1` fails with the parameter error and produces no color
assignment. -/
theorem colorEntry_invalid (nNodes : Int) (adj : Nat → Nat → Int)
    (h : nNodes < 1) :
    colorEntry nNodes adj = Except.error "Number of nodes must be at least 1!" := by
  unfold colorEntry
  rw [if_pos h]

/-- Witness for C8 at `n_nodes = 0` with the all-zero matrix. -/
theorem colorEntry_invalid_witness :
    (0 : Int) < 1 ∧
      colorEntry 0 (fun _ _ => 0) = Except.error "Number of nodes must be at least 1!" :=
  ⟨by decide, colorEntry_invalid 0 (fun _ _ => 0) (by decide)⟩

end TaskWhiz

